import Mathlib

/-!
A shallow embedding of the content-index core of the public-notes
application (source files src/server.ts and src/build.ts): slug
derivation, navigation-tree building, the page cache, page lookup,
search, and the filesystem-watch event handlers.  Strings (paths,
names, queries, bodies) are modelled as lists of characters; the
JavaScript Map is modelled as an association list in insertion order;
the locale-aware name comparison used by the tree sort is a parameter.
-/

namespace PublicNotes

/-- Strings are modelled as lists of characters. -/
abbrev Str := List Char

/-- The three characters of the markdown extension. -/
def mdExt : Str := ['.', 'm', 'd']

/-- The test for a trailing markdown extension, as used both by the
anchored regex replace and by the endsWith check on entry names
(server.ts lines 94-95, build.ts lines 69-70). -/
def hasMdSuffix (s : Str) : Bool := s.reverse.take 3 == ['d', 'm', '.']

/-- Replacing the anchored regex match by the empty string: strip one
trailing markdown extension when present (server.ts line 95). -/
def stripMd (s : Str) : Str :=
  if hasMdSuffix s then (s.reverse.drop 3).reverse else s

/-- Replacing every backslash by a forward slash: the separator
normalization applied when deriving a slug (server.ts line 95). -/
def normSep (s : Str) : Str := s.map (fun c => if c = '\\' then '/' else c)

/-- The slug of a relative document path, exactly as computed at
server.ts lines 95, 134 and 202 and build.ts lines 70 and 100:
strip the trailing markdown extension, then normalize separators. -/
def pathToSlug (p : Str) : Str := normSep (stripMd p)

/-- Modelled from the spec: section 4.1 names slugToPath as the inverse
direction of the slug codec, used wherever a slug is turned back into a
path; the repository itself keeps only slugs, so the inverse is
re-appending the stripped extension. -/
def slugToPath (s : Str) : Str := s ++ mdExt

theorem hasMdSuffix_append (q : Str) : hasMdSuffix (q ++ mdExt) = true := by
  simp [hasMdSuffix, mdExt]

theorem stripMd_append (q : Str) : stripMd (q ++ mdExt) = q := by
  rw [stripMd, hasMdSuffix_append]
  simp [mdExt]

theorem exists_of_hasMdSuffix {s : Str} (h : hasMdSuffix s = true) :
    ∃ q, s = q ++ mdExt := by
  refine ⟨(s.reverse.drop 3).reverse, ?_⟩
  have htake : s.reverse.take 3 = ['d', 'm', '.'] := by
    simpa [hasMdSuffix] using h
  have hs : s.reverse = ['d', 'm', '.'] ++ s.reverse.drop 3 := by
    conv_lhs => rw [← List.take_append_drop 3 s.reverse]
    rw [htake]
  calc s = s.reverse.reverse := by rw [List.reverse_reverse]
    _ = (['d', 'm', '.'] ++ s.reverse.drop 3).reverse := by rw [← hs]
    _ = (s.reverse.drop 3).reverse ++ mdExt := by
          rw [List.reverse_append]; rfl

theorem normSep_append_mdExt (q : Str) :
    normSep (q ++ mdExt) = normSep q ++ mdExt := by
  simp [normSep, mdExt]

/-- C2: on document paths (paths carrying the markdown extension) the
slug map is injective up to separator normalization — two document
paths get the same slug exactly when they agree after backslashes are
normalized to forward slashes — and the spec-level inverse slugToPath
round-trips pathToSlug back to the separator-normalized original
path. -/
theorem C2_slug_codec_bijective (p₁ p₂ : Str)
    (h₁ : hasMdSuffix p₁ = true) (h₂ : hasMdSuffix p₂ = true) :
    (pathToSlug p₁ = pathToSlug p₂ ↔ normSep p₁ = normSep p₂) ∧
    slugToPath (pathToSlug p₁) = normSep p₁ := by
  obtain ⟨q₁, rfl⟩ := exists_of_hasMdSuffix h₁
  obtain ⟨q₂, rfl⟩ := exists_of_hasMdSuffix h₂
  rw [pathToSlug, pathToSlug, stripMd_append, stripMd_append,
    normSep_append_mdExt, normSep_append_mdExt, slugToPath]
  refine ⟨⟨fun h => by rw [h], fun h => List.append_cancel_right h⟩, rfl⟩

/-- Witness for C2 at the two separator spellings of the same path. -/
theorem C2_slug_codec_bijective_witness :
    (pathToSlug ['a', '\\', 'b', '.', 'm', 'd'] =
        pathToSlug ['a', '/', 'b', '.', 'm', 'd'] ↔
      normSep ['a', '\\', 'b', '.', 'm', 'd'] =
        normSep ['a', '/', 'b', '.', 'm', 'd']) ∧
    slugToPath (pathToSlug ['a', '\\', 'b', '.', 'm', 'd']) =
      normSep ['a', '\\', 'b', '.', 'm', 'd'] :=
  C2_slug_codec_bijective _ _ (by decide) (by decide)

/-! Page records, the page cache, page lookup and search
(server.ts lines 62-72, 113-119, 225-273). -/

/-- The front-matter metadata bag, restricted to the fields the core
reads (title and description); a missing field is none, mirroring an
undefined JavaScript property. -/
structure Frontmatter where
  title : Option Str
  description : Option Str
deriving DecidableEq, Repr

/-- The PageData record cached per slug (server.ts lines 62-68). -/
structure SPage where
  frontmatter : Frontmatter
  content : Str
  slug : Str
  filePath : Str
  relativePath : Str
deriving DecidableEq, Repr

/-- The JavaScript truthiness fallback t || fb on an optional string:
an absent or empty title falls back to fb. -/
def jsOr (t : Option Str) (fb : Str) : Str :=
  match t with
  | some s => if s = [] then fb else s
  | none => fb

/-- Point lookup in the markdownCache map, modelled on its association
list in insertion order. -/
def cacheGet (m : List (Str × SPage)) (k : Str) : Option SPage :=
  (m.find? (fun kv => kv.1 == k)).map (fun kv => kv.2)

/-- Does s contain n as a contiguous run starting at the front? -/
def startsWithL : Str → Str → Bool
  | _, [] => true
  | [], _ :: _ => false
  | c :: cs, d :: ds => c == d && startsWithL cs ds

/-- JS h.includes(n): does h contain n as a contiguous substring? -/
def containsL : Str → Str → Bool
  | [], n => n.isEmpty
  | c :: t, n => startsWithL (c :: t) n || containsL t n

/-- JS s.toLowerCase, character by character. -/
def toLower (s : Str) : Str := s.map Char.toLower

/-- Is c in the character class of lowercase letters, uppercase
letters, digits, slash, underscore and hyphen? -/
def isSlugChar (c : Char) : Bool :=
  c.isAlpha || c.isDigit || c == '/' || c == '_' || c == '-'

/-- validateSlug (server.ts lines 113-119): reject a slug containing a
parent-directory sequence of two dots, then require the anchored
character-class regex to match (at least one character, all from the
allowed class). -/
def validateSlug (s : Str) : Bool :=
  !containsL s ['.', '.'] && (!s.isEmpty && s.all isSlugChar)

/-- The error taxonomy surfaced by the API handlers. -/
inductive ApiError where
  | invalidPath
  | notFound
  | queryTooLong
deriving DecidableEq, Repr

/-- The JSON body answered by the page endpoint (server.ts lines
239-244). -/
structure PageResponse where
  title : Str
  content : Str
  frontmatter : Frontmatter
  slug : Str
deriving DecidableEq, Repr

/-- The page endpoint (server.ts lines 225-245): validate the slug
before any lookup, then look the slug up in the cache, answering 404 on
a miss and otherwise the record with the title falling back to the
slug. -/
def getPage (m : List (Str × SPage)) (slug : Str) : Except ApiError PageResponse :=
  if validateSlug slug then
    match cacheGet m slug with
    | none => Except.error ApiError.notFound
    | some page =>
        Except.ok
          { title := jsOr page.frontmatter.title slug
            content := page.content
            frontmatter := page.frontmatter
            slug := slug }
  else Except.error ApiError.invalidPath

/-- One entry of the search response: slug, effective title and
optional description — the body is not exposed (server.ts lines
265-269). -/
structure SearchResult where
  slug : Str
  title : Str
  description : Option Str
deriving DecidableEq, Repr

/-- The projection of a cached page to a search result. -/
def toSearchResult (p : SPage) : SearchResult :=
  { slug := p.slug
    title := jsOr p.frontmatter.title p.slug
    description := p.frontmatter.description }

/-- The match predicate of the search endpoint (server.ts lines
260-264): the lowercased query occurs in the lowercased effective title
or in the lowercased sanitized body. -/
def pageMatches (query : Str) (p : SPage) : Bool :=
  containsL (toLower (jsOr p.frontmatter.title p.slug)) query ||
  containsL (toLower p.content) query

/-- The search endpoint (server.ts lines 247-273) over a snapshot of
the cache values in insertion order: lowercase the query, answer the
empty list on an empty query, reject queries longer than 100
characters, and otherwise filter, project and cap at 20 results. -/
def searchImpl (snapshot : List SPage) (qRaw : Str) : Except ApiError (List SearchResult) :=
  let query := toLower qRaw
  if query.isEmpty then Except.ok []
  else if 100 < query.length then Except.error ApiError.queryTooLong
  else
    Except.ok (((snapshot.filter (fun p => pageMatches query p)).map
      toSearchResult).take 20)

/-- C7: a slug containing a parent-directory two-dot sequence or any
character outside the allowed class is answered with the validation
error, whatever the cache contents — the rejection happens before any
lookup. -/
theorem C7_invalid_slug_rejected (slug : Str)
    (h : containsL slug ['.', '.'] = true ∨ ∃ c ∈ slug, isSlugChar c = false) :
    ∀ m : List (Str × SPage), getPage m slug = Except.error ApiError.invalidPath := by
  intro m
  have hv : validateSlug slug = false := by
    rcases h with h | ⟨c, hc, hbad⟩
    · simp [validateSlug, h]
    · have hall : slug.all isSlugChar = false := by
        cases hb : slug.all isSlugChar with
        | false => rfl
        | true => exact absurd (List.all_eq_true.mp hb c hc) (by simp [hbad])
      simp [validateSlug, hall]
  simp [getPage, hv]

/-- Witness for C7: the bare parent-directory slug of two dots is
rejected on the empty cache. -/
theorem C7_invalid_slug_rejected_witness :
    getPage [] ['.', '.'] = Except.error ApiError.invalidPath :=
  C7_invalid_slug_rejected ['.', '.'] (Or.inl (by decide)) []

/-- C8: any query longer than 100 characters is answered with the
query-too-long error, whatever the snapshot contents — the rejection
happens before any record is scanned. -/
theorem C8_long_query_rejected (q : Str) (h : 100 < q.length) :
    ∀ snapshot : List SPage,
      searchImpl snapshot q = Except.error ApiError.queryTooLong := by
  intro snapshot
  have hlen : (toLower q).length = q.length := by simp [toLower]
  have hne : (toLower q).isEmpty = false := by
    cases hq : toLower q with
    | nil => rw [hq] at hlen; simp at hlen; omega
    | cons c t => rfl
  rw [searchImpl]
  simp only [hne, Bool.false_eq_true, if_false, hlen, h, if_pos]

/-- Witness for C8 at a 101-character query over the empty snapshot. -/
theorem C8_long_query_rejected_witness :
    searchImpl [] (List.replicate 101 'a') = Except.error ApiError.queryTooLong :=
  C8_long_query_rejected (List.replicate 101 'a') (by simp) []

/-- The final path segment of a relative path: the document's
filename. -/
def baseName (p : Str) : Str :=
  (p.reverse.takeWhile (fun c => !(c == '/' || c == '\\'))).reverse

/-- C3 counterexample: for the nested document folder/b.md with no
front-matter title, the page endpoint reports the slug folder slash b
as the title, which differs from the filename b with its extension
stripped. -/
theorem C3_counterexample :
    getPage
      [(['f', 'o', 'l', 'd', 'e', 'r', '/', 'b'],
        { frontmatter := { title := none, description := none }
          content := []
          slug := ['f', 'o', 'l', 'd', 'e', 'r', '/', 'b']
          filePath := []
          relativePath := ['f', 'o', 'l', 'd', 'e', 'r', '/', 'b', '.', 'm', 'd'] })]
      ['f', 'o', 'l', 'd', 'e', 'r', '/', 'b'] =
      Except.ok
        { title := ['f', 'o', 'l', 'd', 'e', 'r', '/', 'b']
          content := []
          frontmatter := { title := none, description := none }
          slug := ['f', 'o', 'l', 'd', 'e', 'r', '/', 'b'] } ∧
    ['f', 'o', 'l', 'd', 'e', 'r', '/', 'b'] ≠
      stripMd (baseName ['f', 'o', 'l', 'd', 'e', 'r', '/', 'b', '.', 'm', 'd']) := by
  constructor
  · rfl
  · decide

/-- C3 amended: for a cached document with no front-matter title, the
title reported by the page endpoint and by the search projection is the
document's slug — the full relative path with the extension stripped
and separators normalized — not the bare filename (they coincide only
for top-level documents). -/
theorem C3_untitled_page_title_is_slug (m : List (Str × SPage)) (slug : Str)
    (p : SPage) (hv : validateSlug slug = true) (hlk : cacheGet m slug = some p)
    (ht : p.frontmatter.title = none) :
    getPage m slug =
      Except.ok
        { title := slug
          content := p.content
          frontmatter := p.frontmatter
          slug := slug } ∧
    (toSearchResult p).title = p.slug := by
  constructor
  · simp [getPage, hv, hlk, jsOr, ht]
  · simp [toSearchResult, jsOr, ht]

/-- Witness for C3 amended at the document folder/b.md of the
counterexample. -/
theorem C3_untitled_page_title_is_slug_witness :
    getPage
      [(['f', 'o', 'l', 'd', 'e', 'r', '/', 'b'],
        { frontmatter := { title := none, description := none }
          content := []
          slug := ['f', 'o', 'l', 'd', 'e', 'r', '/', 'b']
          filePath := []
          relativePath := ['f', 'o', 'l', 'd', 'e', 'r', '/', 'b', '.', 'm', 'd'] })]
      ['f', 'o', 'l', 'd', 'e', 'r', '/', 'b'] =
      Except.ok
        { title := ['f', 'o', 'l', 'd', 'e', 'r', '/', 'b']
          content := []
          frontmatter := { title := none, description := none }
          slug := ['f', 'o', 'l', 'd', 'e', 'r', '/', 'b'] } ∧
    (toSearchResult
      { frontmatter := { title := none, description := none }
        content := []
        slug := ['f', 'o', 'l', 'd', 'e', 'r', '/', 'b']
        filePath := []
        relativePath := ['f', 'o', 'l', 'd', 'e', 'r', '/', 'b', '.', 'm', 'd'] }).title =
      ['f', 'o', 'l', 'd', 'e', 'r', '/', 'b'] :=
  C3_untitled_page_title_is_slug
    [(['f', 'o', 'l', 'd', 'e', 'r', '/', 'b'],
      { frontmatter := { title := none, description := none }
        content := []
        slug := ['f', 'o', 'l', 'd', 'e', 'r', '/', 'b']
        filePath := []
        relativePath := ['f', 'o', 'l', 'd', 'e', 'r', '/', 'b', '.', 'm', 'd'] })]
    ['f', 'o', 'l', 'd', 'e', 'r', '/', 'b']
    { frontmatter := { title := none, description := none }
      content := []
      slug := ['f', 'o', 'l', 'd', 'e', 'r', '/', 'b']
      filePath := []
      relativePath := ['f', 'o', 'l', 'd', 'e', 'r', '/', 'b', '.', 'm', 'd'] }
    (by decide) (by rfl) (by rfl)

/-- C6 counterexample: for a 101-character query the claim predicts the
list of the at most 20 matching records (empty on the empty snapshot),
but the code rejects the query instead of producing a result list. -/
theorem C6_counterexample :
    searchImpl [] (List.replicate 101 'a') = Except.error ApiError.queryTooLong ∧
    searchImpl [] (List.replicate 101 'a') ≠ Except.ok [] := by
  constructor
  · exact C8_long_query_rejected _ (by simp) []
  · intro h
    rw [C8_long_query_rejected _ (by simp) []] at h
    exact Except.noConfusion h

/-- C6 amended: for queries within the 100-character limit, an empty
query yields the empty result list, and otherwise the result is the
first at most 20 records of the snapshot, in snapshot order, whose
effective title or sanitized body contains the lowercased query, each
projected to slug, effective title and optional description (the body
is not part of a search result). -/
theorem C6_search_results (snapshot : List SPage) (q : Str)
    (hlen : q.length ≤ 100) :
    searchImpl snapshot q =
      Except.ok
        (if toLower q = [] then []
         else ((snapshot.filter (fun p => pageMatches (toLower q) p)).take 20).map
           toSearchResult) := by
  rw [searchImpl]
  by_cases hq : toLower q = []
  · simp [hq]
  · have hne : (toLower q).isEmpty = false := by
      cases hq2 : toLower q with
      | nil => exact absurd hq2 hq
      | cons c t => rfl
    have hlen2 : ¬(100 < (toLower q).length) := by
      have : (toLower q).length = q.length := by simp [toLower]
      omega
    simp only [hne, Bool.false_eq_true, if_false, hlen2, if_neg, hq,
      List.map_take]

/-- Witness for C6 amended: a one-character query over a two-record
snapshot in which exactly the first record matches. -/
theorem C6_search_results_witness :
    searchImpl
      [{ frontmatter := { title := none, description := none }
         content := ['a']
         slug := ['x']
         filePath := []
         relativePath := ['x', '.', 'm', 'd'] },
       { frontmatter := { title := none, description := none }
         content := ['b']
         slug := ['y']
         filePath := []
         relativePath := ['y', '.', 'm', 'd'] }] ['a'] =
      Except.ok
        (if toLower ['a'] = [] then []
         else (([{ frontmatter := { title := none, description := none }
                   content := ['a']
                   slug := ['x']
                   filePath := []
                   relativePath := ['x', '.', 'm', 'd'] },
                 { frontmatter := { title := none, description := none }
                   content := ['b']
                   slug := ['y']
                   filePath := []
                   relativePath := ['y', '.', 'm', 'd'] }].filter
                  (fun p => pageMatches (toLower ['a']) p)).take 20).map
           toSearchResult) :=
  C6_search_results _ _ (by decide)

/-! The tree builder (server.ts lines 75-110, build.ts lines 50-85).
The filesystem is modelled by what the walk inspects: each directory
entry has a name and is either a directory with its own entries or a
non-directory entry. -/

/-- A directory entry as seen by the recursive walk. -/
inductive Entry where
  | file (name : Str)
  | dir (name : Str) (entries : List Entry)

/-- The name of an entry. -/
def entryName : Entry → Str
  | Entry.file n => n
  | Entry.dir n _ => n

/-- Is the entry a directory? -/
def entryIsDir : Entry → Bool
  | Entry.file _ => false
  | Entry.dir _ _ => true

/-- A node of the navigation tree: a file node carries a display title,
a folder node carries its ordered children. -/
inductive FileNode where
  | file (name : Str) (path : Str) (title : Str)
  | folder (name : Str) (path : Str) (children : List FileNode)

/-- Is the node a folder node? -/
def nodeIsFolder : FileNode → Bool
  | FileNode.file _ _ _ => false
  | FileNode.folder _ _ _ => true

/-- The name of a node. -/
def nodeName : FileNode → Str
  | FileNode.file n _ _ => n
  | FileNode.folder n _ _ => n

/-- The sort comparator of both tree builders, read as at-most: nodes
of the same kind are ordered by the locale-aware name comparison lcLe,
and a folder node sorts before a file node (server.ts lines 89-92 and
106-109, build.ts lines 64-67 and 81-84). -/
def nodeLe (lcLe : Str → Str → Bool) (a b : FileNode) : Bool :=
  if nodeIsFolder a = nodeIsFolder b then lcLe (nodeName a) (nodeName b)
  else nodeIsFolder a

/-- The comparator as a decidable relation. -/
def nodeRel (lcLe : Str → Str → Bool) (a b : FileNode) : Prop :=
  nodeLe lcLe a b = true

instance (lcLe : Str → Str → Bool) : DecidableRel (nodeRel lcLe) :=
  fun a b => inferInstanceAs (Decidable (nodeLe lcLe a b = true))

/-- The stable comparator sort applied by both builders to each node
list, modelling the stable JavaScript Array sort. -/
def sortNodes (lcLe : Str → Str → Bool) (ns : List FileNode) : List FileNode :=
  List.insertionSort (nodeRel lcLe) ns

/-- Joining a relative path with an entry name, with the empty relative
path of the content root joining to the bare name. -/
def pathJoin (a b : Str) : Str := if a = [] then b else a ++ '/' :: b

/-- The node list accumulated by the entry loop of the service-variant
buildFileTree (server.ts lines 79-104): a directory entry contributes a
folder node whose children are the recursively built and sorted list,
sorted once more at the push; an entry whose name carries the markdown
extension contributes a file node whose title is the cached
front-matter title, falling back to the extension-stripped filename;
any other entry contributes nothing. -/
def buildNodesS (lcLe : Str → Str → Bool) (m : List (Str × SPage)) :
    List Entry → Str → List FileNode
  | [], _ => []
  | Entry.dir name sub :: es, rel =>
      FileNode.folder name (pathJoin rel name)
        (sortNodes lcLe (sortNodes lcLe (buildNodesS lcLe m sub (pathJoin rel name)))) ::
      buildNodesS lcLe m es rel
  | Entry.file name :: es, rel =>
      (if hasMdSuffix name then
        [FileNode.file (stripMd name) (pathJoin rel name)
          (jsOr ((cacheGet m (pathToSlug (pathJoin rel name))).bind
            (fun p => p.frontmatter.title)) (stripMd name))]
      else []) ++ buildNodesS lcLe m es rel

/-- The service-variant buildFileTree (server.ts lines 75-110): build
the node list of a directory and sort it. -/
def buildFileTreeS (lcLe : Str → Str → Bool) (m : List (Str × SPage))
    (es : List Entry) (rel : Str) : List FileNode :=
  sortNodes lcLe (buildNodesS lcLe m es rel)

/-- The PageData record of the batch variant (build.ts lines 31-37). -/
structure BPage where
  slug : Str
  title : Str
  content : Str
  frontmatter : Frontmatter
  relativePath : Str
deriving DecidableEq, Repr

/-- The node list accumulated by the entry loop of the batch-variant
buildFileTree (build.ts lines 54-79); it differs from the service
variant only in resolving the display title through a linear find over
the allPages list instead of the cache map. -/
def buildNodesB (lcLe : Str → Str → Bool) (pages : List BPage) :
    List Entry → Str → List FileNode
  | [], _ => []
  | Entry.dir name sub :: es, rel =>
      FileNode.folder name (pathJoin rel name)
        (sortNodes lcLe (sortNodes lcLe (buildNodesB lcLe pages sub (pathJoin rel name)))) ::
      buildNodesB lcLe pages es rel
  | Entry.file name :: es, rel =>
      (if hasMdSuffix name then
        [FileNode.file (stripMd name) (pathJoin rel name)
          (jsOr ((pages.find? (fun p => p.slug == pathToSlug (pathJoin rel name))).bind
            (fun p => p.frontmatter.title)) (stripMd name))]
      else []) ++ buildNodesB lcLe pages es rel

/-- The batch-variant buildFileTree (build.ts lines 50-85). -/
def buildFileTreeB (lcLe : Str → Str → Bool) (pages : List BPage)
    (es : List Entry) (rel : Str) : List FileNode :=
  sortNodes lcLe (buildNodesB lcLe pages es rel)

theorem buildNodes_agree (lcLe : Str → Str → Bool) (m : List (Str × SPage))
    (pages : List BPage)
    (h : ∀ s : Str, (cacheGet m s).bind (fun p => p.frontmatter.title) =
      (pages.find? (fun p => p.slug == s)).bind (fun p => p.frontmatter.title)) :
    ∀ es rel, buildNodesS lcLe m es rel = buildNodesB lcLe pages es rel := by
  intro es rel
  induction es, rel using buildNodesS.induct lcLe m with
  | case1 rel => rw [buildNodesS, buildNodesB]
  | case2 name sub es rel ihsub ihes =>
      rw [buildNodesS, buildNodesB, ihsub, ihes]
  | case3 name es rel ihes =>
      rw [buildNodesS, buildNodesB, ihes, h]

/-- C10: given the same directory contents and page collections that
resolve every slug to the same front-matter title, the service-variant
and batch-variant tree builders return identical navigation trees. -/
theorem C10_tree_builders_agree (lcLe : Str → Str → Bool)
    (m : List (Str × SPage)) (pages : List BPage)
    (h : ∀ s : Str, (cacheGet m s).bind (fun p => p.frontmatter.title) =
      (pages.find? (fun p => p.slug == s)).bind (fun p => p.frontmatter.title)) :
    ∀ es rel, buildFileTreeS lcLe m es rel = buildFileTreeB lcLe pages es rel := by
  intro es rel
  rw [buildFileTreeS, buildFileTreeB, buildNodes_agree lcLe m pages h]

/-- Witness for C10 on empty page collections over a directory with a
subdirectory, a markdown file inside it, a stray non-markdown file and
a top-level markdown file. -/
theorem C10_tree_builders_agree_witness :
    buildFileTreeS (fun _ _ => true) []
      [Entry.dir ['d'] [Entry.file ['x', '.', 'm', 'd']],
       Entry.file ['n', 'o', 't', 'e', 's'],
       Entry.file ['a', '.', 'm', 'd']] [] =
    buildFileTreeB (fun _ _ => true) []
      [Entry.dir ['d'] [Entry.file ['x', '.', 'm', 'd']],
       Entry.file ['n', 'o', 't', 'e', 's'],
       Entry.file ['a', '.', 'm', 'd']] [] :=
  C10_tree_builders_agree (fun _ _ => true) [] [] (fun _ => rfl)
    [Entry.dir ['d'] [Entry.file ['x', '.', 'm', 'd']],
     Entry.file ['n', 'o', 't', 'e', 's'],
     Entry.file ['a', '.', 'm', 'd']] []

/-! Specification-side descriptions of the directory contents and of
the built tree, used to state what the tree builder produces. -/

/-- The relative paths of the markdown documents below a directory, in
walk order. -/
def mdFilePaths : List Entry → Str → List Str
  | [], _ => []
  | Entry.file name :: es, rel =>
      (if hasMdSuffix name then [pathJoin rel name] else []) ++ mdFilePaths es rel
  | Entry.dir name sub :: es, rel =>
      mdFilePaths sub (pathJoin rel name) ++ mdFilePaths es rel

/-- The relative paths of the subdirectories below a directory, in walk
order. -/
def dirPaths : List Entry → Str → List Str
  | [], _ => []
  | Entry.file _ :: es, rel => dirPaths es rel
  | Entry.dir name sub :: es, rel =>
      pathJoin rel name :: (dirPaths sub (pathJoin rel name) ++ dirPaths es rel)

/-- The paths of all file nodes of a forest, at every depth. -/
def filePathsOf : List FileNode → List Str
  | [] => []
  | FileNode.file _ p _ :: ns => p :: filePathsOf ns
  | FileNode.folder _ _ cs :: ns => filePathsOf cs ++ filePathsOf ns

/-- The paths of all folder nodes of a forest, at every depth. -/
def folderPathsOf : List FileNode → List Str
  | [] => []
  | FileNode.file _ _ _ :: ns => folderPathsOf ns
  | FileNode.folder _ p cs :: ns => p :: (folderPathsOf cs ++ folderPathsOf ns)

/-- Every folder node of the forest, at every depth, has its children
list pairwise ordered by the comparator. -/
def allSorted (lcLe : Str → Str → Bool) : List FileNode → Prop
  | [] => True
  | FileNode.file _ _ _ :: ns => allSorted lcLe ns
  | FileNode.folder _ _ cs :: ns =>
      (List.Pairwise (nodeRel lcLe) cs ∧ allSorted lcLe cs) ∧ allSorted lcLe ns

/-- The file paths contributed by a single node. -/
def headFilePaths : FileNode → List Str
  | FileNode.file _ p _ => [p]
  | FileNode.folder _ _ cs => filePathsOf cs

/-- The folder paths contributed by a single node. -/
def headFolderPaths : FileNode → List Str
  | FileNode.file _ _ _ => []
  | FileNode.folder _ p cs => p :: folderPathsOf cs

/-- The sortedness condition contributed by a single node. -/
def nodeSorted (lcLe : Str → Str → Bool) : FileNode → Prop
  | FileNode.file _ _ _ => True
  | FileNode.folder _ _ cs =>
      List.Pairwise (nodeRel lcLe) cs ∧ allSorted lcLe cs

theorem filePathsOf_cons (n : FileNode) (ns : List FileNode) :
    filePathsOf (n :: ns) = headFilePaths n ++ filePathsOf ns := by
  cases n <;> simp [filePathsOf, headFilePaths]

theorem folderPathsOf_cons (n : FileNode) (ns : List FileNode) :
    folderPathsOf (n :: ns) = headFolderPaths n ++ folderPathsOf ns := by
  cases n <;> simp [folderPathsOf, headFolderPaths]

theorem allSorted_cons (lcLe : Str → Str → Bool) (n : FileNode) (ns : List FileNode) :
    allSorted lcLe (n :: ns) ↔ nodeSorted lcLe n ∧ allSorted lcLe ns := by
  cases n <;> simp [allSorted, nodeSorted]

theorem filePathsOf_perm {l₁ l₂ : List FileNode}
    (h : l₁.Perm l₂) : (filePathsOf l₁).Perm (filePathsOf l₂) := by
  induction h with
  | nil => exact List.Perm.refl _
  | cons x _ ih =>
      simp only [filePathsOf_cons]
      exact ih.append_left _
  | swap x y l =>
      simp only [filePathsOf_cons]
      exact List.perm_append_comm_assoc _ _ _
  | trans _ _ ih₁ ih₂ => exact ih₁.trans ih₂

theorem folderPathsOf_perm {l₁ l₂ : List FileNode}
    (h : l₁.Perm l₂) : (folderPathsOf l₁).Perm (folderPathsOf l₂) := by
  induction h with
  | nil => exact List.Perm.refl _
  | cons x _ ih =>
      simp only [folderPathsOf_cons]
      exact ih.append_left _
  | swap x y l =>
      simp only [folderPathsOf_cons]
      exact List.perm_append_comm_assoc _ _ _
  | trans _ _ ih₁ ih₂ => exact ih₁.trans ih₂

theorem allSorted_perm (lcLe : Str → Str → Bool) {l₁ l₂ : List FileNode}
    (h : l₁.Perm l₂) : allSorted lcLe l₁ ↔ allSorted lcLe l₂ := by
  induction h with
  | nil => exact Iff.rfl
  | cons x _ ih =>
      simp only [allSorted_cons]
      exact and_congr_right (fun _ => ih)
  | swap x y l =>
      simp only [allSorted_cons]
      tauto
  | trans _ _ ih₁ ih₂ => exact ih₁.trans ih₂

theorem nodeRel_total (lcLe : Str → Str → Bool)
    (hto : ∀ a b, lcLe a b = true ∨ lcLe b a = true) :
    ∀ a b, nodeRel lcLe a b ∨ nodeRel lcLe b a := by
  intro a b
  unfold nodeRel nodeLe
  cases hfa : nodeIsFolder a <;> cases hfb : nodeIsFolder b <;>
    simp [hfa, hfb] <;> exact hto _ _

theorem nodeRel_trans (lcLe : Str → Str → Bool)
    (htr : ∀ a b c, lcLe a b = true → lcLe b c = true → lcLe a c = true) :
    ∀ a b c, nodeRel lcLe a b → nodeRel lcLe b c → nodeRel lcLe a c := by
  intro a b c hab hbc
  unfold nodeRel nodeLe at *
  cases hfa : nodeIsFolder a <;> cases hfb : nodeIsFolder b <;>
    cases hfc : nodeIsFolder c <;>
      simp [hfa, hfb, hfc] at * <;> exact htr _ _ _ hab hbc

theorem sortNodes_perm (lcLe : Str → Str → Bool) (ns : List FileNode) :
    (sortNodes lcLe ns).Perm ns :=
  List.perm_insertionSort _ _

theorem sortNodes_pairwise (lcLe : Str → Str → Bool)
    (htr : ∀ a b c, lcLe a b = true → lcLe b c = true → lcLe a c = true)
    (hto : ∀ a b, lcLe a b = true ∨ lcLe b a = true) (ns : List FileNode) :
    List.Pairwise (nodeRel lcLe) (sortNodes lcLe ns) := by
  haveI : IsTotal FileNode (nodeRel lcLe) := ⟨nodeRel_total lcLe hto⟩
  haveI : IsTrans FileNode (nodeRel lcLe) := ⟨nodeRel_trans lcLe htr⟩
  exact List.sorted_insertionSort (nodeRel lcLe) ns

theorem buildNodesS_filePaths (lcLe : Str → Str → Bool) (m : List (Str × SPage)) :
    ∀ es rel, (filePathsOf (buildNodesS lcLe m es rel)).Perm (mdFilePaths es rel) := by
  intro es rel
  induction es, rel using buildNodesS.induct lcLe m with
  | case1 rel => simp [buildNodesS, mdFilePaths, filePathsOf]
  | case2 name sub es rel ihsub ihes =>
      rw [buildNodesS, mdFilePaths]
      simp only [filePathsOf_cons, headFilePaths]
      exact (((filePathsOf_perm (sortNodes_perm lcLe _)).trans
        ((filePathsOf_perm (sortNodes_perm lcLe _)).trans ihsub))).append ihes
  | case3 name es rel ihes =>
      rw [buildNodesS, mdFilePaths]
      by_cases hmd : hasMdSuffix name = true
      · rw [if_pos hmd, if_pos hmd]
        simp only [List.singleton_append, filePathsOf_cons, headFilePaths]
        exact ihes.cons _
      · rw [if_neg hmd, if_neg hmd]
        simpa using ihes

theorem buildNodesS_folderPaths (lcLe : Str → Str → Bool) (m : List (Str × SPage)) :
    ∀ es rel, (folderPathsOf (buildNodesS lcLe m es rel)).Perm (dirPaths es rel) := by
  intro es rel
  induction es, rel using buildNodesS.induct lcLe m with
  | case1 rel => simp [buildNodesS, dirPaths, folderPathsOf]
  | case2 name sub es rel ihsub ihes =>
      rw [buildNodesS, dirPaths]
      simp only [folderPathsOf_cons, headFolderPaths, List.cons_append]
      exact ((((folderPathsOf_perm (sortNodes_perm lcLe _)).trans
        ((folderPathsOf_perm (sortNodes_perm lcLe _)).trans ihsub))).append ihes).cons _
  | case3 name es rel ihes =>
      rw [buildNodesS, dirPaths]
      by_cases hmd : hasMdSuffix name = true
      · rw [if_pos hmd]
        simp only [List.singleton_append, folderPathsOf_cons, headFolderPaths]
        simpa using ihes
      · rw [if_neg hmd]
        simpa using ihes

theorem allSorted_buildNodesS (lcLe : Str → Str → Bool) (m : List (Str × SPage))
    (htr : ∀ a b c, lcLe a b = true → lcLe b c = true → lcLe a c = true)
    (hto : ∀ a b, lcLe a b = true ∨ lcLe b a = true) :
    ∀ es rel, allSorted lcLe (buildNodesS lcLe m es rel) := by
  intro es rel
  induction es, rel using buildNodesS.induct lcLe m with
  | case1 rel => rw [buildNodesS]; simp [allSorted]
  | case2 name sub es rel ihsub ihes =>
      rw [buildNodesS]
      rw [allSorted_cons]
      refine ⟨⟨sortNodes_pairwise lcLe htr hto _, ?_⟩, ihes⟩
      exact ((allSorted_perm lcLe (sortNodes_perm lcLe _)).trans
        (allSorted_perm lcLe (sortNodes_perm lcLe _))).mpr ihsub
  | case3 name es rel ihes =>
      rw [buildNodesS]
      by_cases hmd : hasMdSuffix name = true
      · rw [if_pos hmd]
        simp only [List.singleton_append, allSorted_cons, nodeSorted]
        exact ⟨trivial, ihes⟩
      · rw [if_neg hmd]
        simpa using ihes

/-- C5: for any cache contents and any locale comparison that is
transitive and total, the tree built over the content root lists
exactly the markdown documents as file nodes (as a permutation of their
relative paths, so each exactly once and nothing else), exactly the
subdirectories as folder nodes, and both the top level and every
folder's children list are pairwise ordered by the comparator — folder
kind before file kind, names ascending by the locale comparison within
a kind. -/
theorem C5_initial_tree_contents (lcLe : Str → Str → Bool)
    (m : List (Str × SPage)) (es : List Entry)
    (htr : ∀ a b c, lcLe a b = true → lcLe b c = true → lcLe a c = true)
    (hto : ∀ a b, lcLe a b = true ∨ lcLe b a = true) :
    (filePathsOf (buildFileTreeS lcLe m es [])).Perm (mdFilePaths es []) ∧
    (folderPathsOf (buildFileTreeS lcLe m es [])).Perm (dirPaths es []) ∧
    List.Pairwise (nodeRel lcLe) (buildFileTreeS lcLe m es []) ∧
    allSorted lcLe (buildFileTreeS lcLe m es []) := by
  refine ⟨?_, ?_, ?_, ?_⟩
  · exact (filePathsOf_perm (sortNodes_perm lcLe _)).trans
      (buildNodesS_filePaths lcLe m es [])
  · exact (folderPathsOf_perm (sortNodes_perm lcLe _)).trans
      (buildNodesS_folderPaths lcLe m es [])
  · exact sortNodes_pairwise lcLe htr hto _
  · exact (allSorted_perm lcLe (sortNodes_perm lcLe _)).mpr
      (allSorted_buildNodesS lcLe m htr hto es [])

/-- Witness for C5 on the empty cache, the everywhere-true comparator
and a root holding a subdirectory with one document, a stray
non-markdown file, and a top-level document. -/
theorem C5_initial_tree_contents_witness :
    (filePathsOf (buildFileTreeS (fun _ _ => true) []
        [Entry.dir ['d'] [Entry.file ['x', '.', 'm', 'd']],
         Entry.file ['n', 'o', 't', 'e', 's'],
         Entry.file ['a', '.', 'm', 'd']] [])).Perm
      (mdFilePaths
        [Entry.dir ['d'] [Entry.file ['x', '.', 'm', 'd']],
         Entry.file ['n', 'o', 't', 'e', 's'],
         Entry.file ['a', '.', 'm', 'd']] []) ∧
    (folderPathsOf (buildFileTreeS (fun _ _ => true) []
        [Entry.dir ['d'] [Entry.file ['x', '.', 'm', 'd']],
         Entry.file ['n', 'o', 't', 'e', 's'],
         Entry.file ['a', '.', 'm', 'd']] [])).Perm
      (dirPaths
        [Entry.dir ['d'] [Entry.file ['x', '.', 'm', 'd']],
         Entry.file ['n', 'o', 't', 'e', 's'],
         Entry.file ['a', '.', 'm', 'd']] []) ∧
    List.Pairwise (nodeRel (fun _ _ => true))
      (buildFileTreeS (fun _ _ => true) []
        [Entry.dir ['d'] [Entry.file ['x', '.', 'm', 'd']],
         Entry.file ['n', 'o', 't', 'e', 's'],
         Entry.file ['a', '.', 'm', 'd']] []) ∧
    allSorted (fun _ _ => true)
      (buildFileTreeS (fun _ _ => true) []
        [Entry.dir ['d'] [Entry.file ['x', '.', 'm', 'd']],
         Entry.file ['n', 'o', 't', 'e', 's'],
         Entry.file ['a', '.', 'm', 'd']] []) :=
  C5_initial_tree_contents (fun _ _ => true) []
    [Entry.dir ['d'] [Entry.file ['x', '.', 'm', 'd']],
     Entry.file ['n', 'o', 't', 'e', 's'],
     Entry.file ['a', '.', 'm', 'd']]
    (fun _ _ _ _ _ => rfl) (fun _ _ => Or.inl rfl)

theorem buildNodesS_leafless (lcLe : Str → Str → Bool) (m : List (Str × SPage))
    (sub : List Entry) :
    (∀ e ∈ sub, entryIsDir e = false ∧ hasMdSuffix (entryName e) = false) →
    ∀ rp, buildNodesS lcLe m sub rp = [] := by
  induction sub with
  | nil => intro _ rp; rw [buildNodesS]
  | cons e es ih =>
      intro h rp
      cases e with
      | dir n s =>
          have := (h _ (List.mem_cons_self _ _)).1
          simp [entryIsDir] at this
      | file n =>
          have h2 : hasMdSuffix n = false := by
            simpa [entryName] using (h _ (List.mem_cons_self _ _)).2
          rw [buildNodesS, if_neg (by simp [h2])]
          simpa using ih (fun e he => h e (List.mem_cons_of_mem _ he)) rp

/-- C9 counterexample: the directory a contains no markdown document at
any depth (it holds only the empty subdirectory b), yet its folder node
is published with a non-empty children list — the child folder node for
b — rather than an empty one. -/
theorem C9_counterexample :
    buildFileTreeS (fun _ _ => true) []
      [Entry.dir ['a'] [Entry.dir ['b'] []]] [] =
      [FileNode.folder ['a'] ['a'] [FileNode.folder ['b'] ['a', '/', 'b'] []]] ∧
    [FileNode.folder ['b'] ['a', '/', 'b'] []] ≠ ([] : List FileNode) := by
  constructor
  · simp [buildFileTreeS, buildNodesS, sortNodes, List.insertionSort,
      List.orderedInsert, pathJoin]
  · simp

/-- C9 amended: the service-variant tree builder emits exactly one
folder node for every subdirectory it encounters — directories with no
markdown content are never omitted — and a directory none of whose
entries is a subdirectory or a markdown file gets an empty children
list. -/
theorem C9_every_directory_is_listed (lcLe : Str → Str → Bool)
    (m : List (Str × SPage)) (es : List Entry) (rel : Str) (name : Str)
    (sub : List Entry)
    (hleaf : ∀ e ∈ sub, entryIsDir e = false ∧ hasMdSuffix (entryName e) = false) :
    (folderPathsOf (buildFileTreeS lcLe m es rel)).Perm (dirPaths es rel) ∧
    buildFileTreeS lcLe m [Entry.dir name sub] rel =
      [FileNode.folder name (pathJoin rel name) []] := by
  constructor
  · exact (folderPathsOf_perm (sortNodes_perm lcLe _)).trans
      (buildNodesS_folderPaths lcLe m es rel)
  · rw [buildFileTreeS, buildNodesS, buildNodesS,
      buildNodesS_leafless lcLe m sub hleaf]
    simp [sortNodes, List.insertionSort]

/-- Witness for C9 amended: a root with one markdown document next to a
directory that holds only a non-markdown file. -/
theorem C9_every_directory_is_listed_witness :
    (folderPathsOf (buildFileTreeS (fun _ _ => true) []
        [Entry.dir ['e'] [Entry.file ['n', 'o', 't', 'e', 's']],
         Entry.file ['a', '.', 'm', 'd']] [])).Perm
      (dirPaths
        [Entry.dir ['e'] [Entry.file ['n', 'o', 't', 'e', 's']],
         Entry.file ['a', '.', 'm', 'd']] []) ∧
    buildFileTreeS (fun _ _ => true) []
      [Entry.dir ['e'] [Entry.file ['n', 'o', 't', 'e', 's']]] [] =
      [FileNode.folder ['e'] (pathJoin [] ['e']) []] :=
  C9_every_directory_is_listed (fun _ _ => true) []
    [Entry.dir ['e'] [Entry.file ['n', 'o', 't', 'e', 's']],
     Entry.file ['a', '.', 'm', 'd']] [] ['e']
    [Entry.file ['n', 'o', 't', 'e', 's']] (by decide)

/-! The watch-event handlers of the Change Synchronizer (server.ts
lines 179-209).  The shared mutable state is the cache map and the
published tree; the unlink handler does not await its tree rebuild but
schedules it as a continuation, which the embedding keeps as an
explicit deferred action returned beside the state the handler leaves
behind at return. -/

/-- The shared state mutated by the watch handlers: the markdownCache
map and the published fileTree (server.ts lines 71-72). -/
structure SyncState where
  cache : List (Str × SPage)
  tree : List FileNode

/-- JS Map.set: replace in place under an existing key, else append. -/
def mapSet (m : List (Str × SPage)) (k : Str) (v : SPage) : List (Str × SPage) :=
  if m.any (fun kv => kv.1 == k) then
    m.map (fun kv => if kv.1 == k then (k, v) else kv)
  else m ++ [(k, v)]

/-- JS Map.delete: drop the binding of the key if present. -/
def mapDelete (m : List (Str × SPage)) (k : Str) : List (Str × SPage) :=
  m.filter (fun kv => !(kv.1 == k))

/-- A continuation scheduled but not awaited by a handler: the tree
rebuild hung on the promise of the unlink handler (server.ts line
205). -/
inductive Deferred where
  | rebuildTree
deriving DecidableEq, Repr

/-- The document-loader failure: an unreadable file or a parser
error. -/
inductive IOErr where
  | ioError
deriving DecidableEq, Repr

/-- The add and change handlers (server.ts lines 186-199, identical
bodies): load and parse the document — a loader failure propagates out
of the handler, there is no catch — then upsert the record under its
slug and rebuild and publish the tree before returning. -/
def onAddEvent (lcLe : Str → Str → Bool) (load : Str → Except IOErr SPage)
    (root : List Entry) (relPath : Str) (st : SyncState) : Except IOErr SyncState :=
  match load relPath with
  | Except.error e => Except.error e
  | Except.ok parsed =>
      Except.ok
        { cache := mapSet st.cache parsed.slug parsed
          tree := buildFileTreeS lcLe (mapSet st.cache parsed.slug parsed) root [] }

/-- The unlink handler (server.ts lines 200-206): delete the slug from
the cache, then schedule — without awaiting — a tree rebuild whose
result will be published whenever the continuation later runs; the
handler returns with the old tree still published. -/
def onUnlinkEvent (relPath : Str) (st : SyncState) : SyncState × List Deferred :=
  ({ cache := mapDelete st.cache (pathToSlug relPath), tree := st.tree },
   [Deferred.rebuildTree])

/-- Running a deferred continuation later: the rebuild reads the cache
and the filesystem as they are at that later time and publishes the
resulting tree. -/
def runDeferred (lcLe : Str → Str → Bool) (root : List Entry) (st : SyncState) :
    Deferred → SyncState
  | Deferred.rebuildTree =>
      { cache := st.cache, tree := buildFileTreeS lcLe st.cache root [] }

/-- A one-document page record exercising the handlers. -/
def demoPage : SPage :=
  { frontmatter := { title := none, description := none }
    content := []
    slug := ['a']
    filePath := []
    relativePath := ['a', '.', 'm', 'd'] }

/-- The synchronizer state holding the one demo document and its
published tree. -/
def demoState : SyncState :=
  { cache := [(['a'], demoPage)]
    tree := [FileNode.file ['a'] ['a', '.', 'm', 'd'] ['a']] }

/-- C1 does not hold of the code: at the moment the unlink handler for
the demo document returns, the record is already deleted from the
store, but the published tree still lists the removed document and the
rebuild-and-publish step is only a pending unawaited continuation; only
running that continuation afterwards (here against the emptied content
root) publishes the tree without the document.  The remove sequence
therefore does not finish before the handler returns. -/
theorem C1_remove_handler_returns_before_rebuild :
    cacheGet (onUnlinkEvent ['a', '.', 'm', 'd'] demoState).1.cache ['a'] = none ∧
    (onUnlinkEvent ['a', '.', 'm', 'd'] demoState).1.tree =
      [FileNode.file ['a'] ['a', '.', 'm', 'd'] ['a']] ∧
    (onUnlinkEvent ['a', '.', 'm', 'd'] demoState).2 = [Deferred.rebuildTree] ∧
    (runDeferred (fun _ _ => true) [] (onUnlinkEvent ['a', '.', 'm', 'd'] demoState).1
      Deferred.rebuildTree).tree = [] := by
  refine ⟨by decide, rfl, rfl, ?_⟩
  simp [runDeferred, onUnlinkEvent, buildFileTreeS, buildNodesS, sortNodes,
    List.insertionSort]

/-- C4 does not hold of the code: when the document loader fails during
an add event, the failure escapes the handler — there is no catch in
the add or change handlers, so the embedded handler propagates the
error instead of reporting it and continuing. -/
theorem C4_loader_failure_escapes_handler :
    onAddEvent (fun _ _ => true) (fun _ => Except.error IOErr.ioError) []
      ['x', '.', 'm', 'd'] demoState = Except.error IOErr.ioError := rfl

end PublicNotes
